import Mathlib

/-!
Verification of the chunked source-separation kernel (`separate_sources`)
from `hybrid_demucs_tutorial.ipynb`.

The embedding models Python/NumPy/Torch exact arithmetic over `ℚ`
(floats are carried as exact rationals, `int(...)` as truncation toward
zero), tensors as shape records with total valuation functions, and the
`while start < length - overlap_frames` loop as fuel-indexed recursion
(with fuel large enough for every terminating run considered here).
-/

namespace HybridDemucs

/-- Python `int(x)` on a real number: truncation toward zero.  The notebook
uses it for `chunk_len`, for the fade lengths and for the cursor advance. -/
def pyint (q : ℚ) : ℤ := if 0 ≤ q then ⌊q⌋ else ⌈q⌉

/-- `chunk_len = int(sample_rate * segment * (1 + overlap))` from
`separate_sources` (cell 9 of the notebook). -/
def chunkLen (R segment overlap : ℚ) : ℤ := pyint (R * segment * (1 + overlap))

/-- `overlap_frames = overlap * sample_rate`; the notebook keeps this value as
a float and compares the integer cursor against `length - overlap_frames`. -/
def overlapFrames (R overlap : ℚ) : ℚ := overlap * R

/-- One iteration record of the windowing loop: the slice bounds
(`mix[:, :, start:end]`) together with the `fade_in_len` / `fade_out_len`
the shared `Fade` module holds while this window is processed. -/
structure Chunk where
  start : ℤ
  stop : ℤ
  fadeInLen : ℤ
  fadeOutLen : ℤ
deriving DecidableEq, Repr

/-- The body of `while start < length - overlap_frames:` in
`separate_sources`, emitting per-iteration `Chunk` records.  State mirrors the
Python locals: `start`, `stop` (Python `end`), and the mutable
`fade.fade_in_len` / `fade.fade_out_len`.  After processing a window the code
advances `start` by `int(chunk_len - overlap_frames)` on the first iteration
(also switching `fade_in_len` to `int(overlap_frames)`) and by `chunk_len`
afterwards, always advances `end` by `chunk_len`, and clears `fade_out_len`
once `end >= length`.  Recursion is by explicit fuel. -/
def sepLoopAux (R segment overlap : ℚ) (L : ℕ) :
    ℕ → ℤ → ℤ → ℤ → ℤ → List Chunk
  | 0, _, _, _, _ => []
  | fuel + 1, start, stop, fi, fo =>
    if (start : ℚ) < (L : ℚ) - overlapFrames R overlap then
      let C := chunkLen R segment overlap
      let start' := if start = 0 then start + pyint ((C : ℚ) - overlapFrames R overlap)
        else start + C
      let fi' := if start = 0 then pyint (overlapFrames R overlap) else fi
      let stop' := stop + C
      let fo' := if (L : ℤ) ≤ stop' then 0 else fo
      ⟨start, stop, fi, fo⟩ :: sepLoopAux R segment overlap L fuel start' stop' fi' fo'
    else []

/-- The full window sequence of one `separate_sources` run on a signal of
`L` frames: the loop started from `start = 0`, `end = chunk_len`,
`fade_in_len = 0`, `fade_out_len = int(overlap_frames)`.  Fuel `L + 2`
bounds the iteration count of every terminating run (the cursor starts at 0,
strictly increases, and the loop stops once it reaches `L`). -/
def chunks (R segment overlap : ℚ) (L : ℕ) : List Chunk :=
  sepLoopAux R segment overlap L (L + 2) 0 (chunkLen R segment overlap) 0
    (pyint (overlapFrames R overlap))

/-- Python slice-index normalization for a sequence of `n` elements:
negative indices count from the end, and indices are clamped to `[0, n]`. -/
def normIdx (n : ℕ) (i : ℤ) : ℕ := if i < 0 then ((n : ℤ) + i).toNat else min i.toNat n

/-- `torch.linspace(0, 1, flen)[j]`: `0` for `flen = 1`, else `j / (flen - 1)`. -/
def linVal (flen : ℤ) (j : ℤ) : ℚ := if flen ≤ 1 then 0 else (j : ℚ) / ((flen : ℚ) - 1)

/-- Gain of `torchaudio.transforms.Fade`'s fade-in factor (linear shape) at
position `i` of a window: the first `fadeInLen` samples ramp `0 → 1`, the rest
are `1`. -/
def fadeInGain (fi : ℤ) (i : ℤ) : ℚ := if i < fi then linVal fi i else 1

/-- Gain of the fade-out factor at position `i` of an `n`-sample window: the
last `fadeOutLen` samples ramp `1 → 0`, the rest are `1`. -/
def fadeOutGain (fo : ℤ) (n : ℤ) (i : ℤ) : ℚ :=
  if n - fo ≤ i then 1 - linVal fo (i - (n - fo)) else 1

/-- Total per-sample gain `fade(out)` applies at position `i` of an `n`-sample
window (the fade-in and fade-out factors multiply). -/
def fadeGain (fi fo : ℤ) (n : ℤ) (i : ℤ) : ℚ := fadeInGain fi i * fadeOutGain fo n i

/-- A rank-3 tensor `(batch, channels, frames)`: shape plus a total valuation. -/
structure Tensor3 where
  d1 : ℕ
  d2 : ℕ
  d3 : ℕ
  val : ℕ → ℕ → ℕ → ℚ

/-- A rank-4 tensor `(batch, sources, channels, frames)`. -/
structure Tensor4 where
  d1 : ℕ
  d2 : ℕ
  d3 : ℕ
  d4 : ℕ
  val : ℕ → ℕ → ℕ → ℕ → ℚ

/-- `torch.zeros(batch, sources, channels, length)`. -/
def zeros4 (a b c d : ℕ) : Tensor4 := ⟨a, b, c, d, fun _ _ _ _ => 0⟩

/-- The locals of one `separate_sources` run that persist across loop
iterations: the input `mix` (read-only in the code) and the accumulator
`final`. -/
structure SepState where
  mix : Tensor3
  final : Tensor4

/-- One loop iteration of `separate_sources`:
`chunk = mix[:, :, start:end]`, `out = model.forward(chunk)`,
`out = fade(out)`, `final[:, :, :, start:end] += out`.
Both slices normalize against the shared frame count `mix.d3`, so the faded
model output lines up with the written range. -/
def processChunk (infer : Tensor3 → Tensor4) (st : SepState) (ck : Chunk) : SepState :=
  let L := st.mix.d3
  let a := normIdx L ck.start
  let b := normIdx L ck.stop
  let n := b - a
  let chunk : Tensor3 := ⟨st.mix.d1, st.mix.d2, n, fun i c t => st.mix.val i c (a + t)⟩
  let out := infer chunk
  let faded : Tensor4 :=
    ⟨out.d1, out.d2, out.d3, out.d4,
      fun i s c t => fadeGain ck.fadeInLen ck.fadeOutLen (n : ℤ) (t : ℤ) * out.val i s c t⟩
  { st with
    final :=
      ⟨st.final.d1, st.final.d2, st.final.d3, st.final.d4,
        fun i s c t =>
          st.final.val i s c t + if a ≤ t ∧ t < b then faded.val i s c (t - a) else 0⟩ }

/-- The whole `separate_sources` run as a state transformer: allocate
`final = torch.zeros(batch, len(model.sources), channels, length)` and fold
the loop body over the emitted windows. -/
def runSep (infer : Tensor3 → Tensor4) (R segment overlap : ℚ) (numSources : ℕ)
    (mix : Tensor3) : SepState :=
  (chunks R segment overlap mix.d3).foldl (processChunk infer)
    ⟨mix, zeros4 mix.d1 numSources mix.d2 mix.d3⟩

/-- `separate_sources(model, mix, segment, overlap)`: the returned `final`
tensor.  `infer` is the opaque inference adapter (`model.forward`),
`numSources` is `len(model.sources)`, `R` the global `sample_rate`. -/
def separate_sources (infer : Tensor3 → Tensor4) (R segment overlap : ℚ)
    (numSources : ℕ) (mix : Tensor3) : Tensor4 :=
  (runSep infer R segment overlap numSources mix).final

/-- Does window `ck` contribute to output frame `t` of an `L`-frame signal
(after Python slice normalization)? -/
def coverTerm (L : ℕ) (t : ℕ) (ck : Chunk) : Bool :=
  decide (normIdx L ck.start ≤ t ∧ t < normIdx L ck.stop)

/-- Number of emitted windows whose written range contains output frame `t`. -/
def coveredCount (L : ℕ) (cks : List Chunk) (t : ℕ) : ℕ :=
  (cks.filter (coverTerm L t)).length

/-- The fade-envelope gain window `ck` applies at output frame `t` (zero if
`t` is outside the window's written range). -/
def gainTerm (L : ℕ) (t : ℕ) (ck : Chunk) : ℚ :=
  let a := normIdx L ck.start
  let b := normIdx L ck.stop
  if a ≤ t ∧ t < b then fadeGain ck.fadeInLen ck.fadeOutLen ((b - a : ℕ) : ℤ) ((t - a : ℕ) : ℤ)
  else 0

/-- Accumulated envelope gain at output frame `t`: the sum of all windows'
fade gains there.  With an identity adapter on a constant signal the output
at `t` is the input value times this sum. -/
def gainSum (L : ℕ) (cks : List Chunk) (t : ℕ) : ℚ := (cks.map (gainTerm L t)).sum

/-- The identity inference adapter: one source, output frames equal to the
input window (`infer(x) = x` broadcast to a single source). -/
def identityInfer (x : Tensor3) : Tensor4 := ⟨x.d1, 1, x.d2, x.d3, fun i _ c t => x.val i c t⟩

/-- A constant-valued `(batch, channels, L)` signal. -/
def constMix (batch channels L : ℕ) (c : ℚ) : Tensor3 := ⟨batch, channels, L, fun _ _ _ => c⟩

/-! ### Basic lemmas about the embedded primitives -/

theorem pyint_intCast (z : ℤ) : pyint (z : ℚ) = z := by
  unfold pyint
  split
  · exact Int.floor_intCast z
  · exact Int.ceil_intCast z

theorem pyint_of_nonneg (q : ℚ) (h : 0 ≤ q) : pyint q = ⌊q⌋ := if_pos h

/-- One unfolding step of the loop (definitional). -/
theorem sepLoopAux_succ (R segment overlap : ℚ) (L : ℕ) (fuel : ℕ) (start stop fi fo : ℤ) :
    sepLoopAux R segment overlap L (fuel + 1) start stop fi fo =
      if (start : ℚ) < (L : ℚ) - overlapFrames R overlap then
        Chunk.mk start stop fi fo ::
          sepLoopAux R segment overlap L fuel
            (if start = 0 then
                start + pyint ((chunkLen R segment overlap : ℚ) - overlapFrames R overlap)
              else start + chunkLen R segment overlap)
            (stop + chunkLen R segment overlap)
            (if start = 0 then pyint (overlapFrames R overlap) else fi)
            (if (L : ℤ) ≤ stop + chunkLen R segment overlap then 0 else fo)
      else [] := rfl

theorem sepLoopAux_zero (R segment overlap : ℚ) (L : ℕ) (start stop fi fo : ℤ) :
    sepLoopAux R segment overlap L 0 start stop fi fo = [] := rfl

/-- The first loop iteration, from the initial state of `separate_sources`. -/
theorem chunks_eq (R segment overlap : ℚ) (L : ℕ) :
    chunks R segment overlap L =
      if (0 : ℚ) < (L : ℚ) - overlapFrames R overlap then
        Chunk.mk 0 (chunkLen R segment overlap) 0 (pyint (overlapFrames R overlap)) ::
          sepLoopAux R segment overlap L (L + 1)
            (pyint ((chunkLen R segment overlap : ℚ) - overlapFrames R overlap))
            (chunkLen R segment overlap + chunkLen R segment overlap)
            (pyint (overlapFrames R overlap))
            (if (L : ℤ) ≤ chunkLen R segment overlap + chunkLen R segment overlap then 0
              else pyint (overlapFrames R overlap))
      else [] := by
  show sepLoopAux R segment overlap L (L + 1 + 1) 0 (chunkLen R segment overlap) 0
      (pyint (overlapFrames R overlap)) = _
  rw [sepLoopAux_succ]
  simp

/-- If the signal is no longer than `overlap_frames`, the loop body never runs. -/
theorem chunks_nil_of_short (R segment overlap : ℚ) (L : ℕ)
    (h : (L : ℚ) ≤ overlapFrames R overlap) : chunks R segment overlap L = [] := by
  rw [chunks_eq, if_neg]
  rw [not_lt, sub_nonpos]
  exact h

/-- If the loop runs at all, the window list is nonempty. -/
theorem chunks_ne_nil (R segment overlap : ℚ) (L : ℕ)
    (h : overlapFrames R overlap < (L : ℚ)) : chunks R segment overlap L ≠ [] := by
  rw [chunks_eq, if_pos (by linarith)]
  exact List.cons_ne_nil _ _

/-- Folding the loop body never changes the `mix` component of the state. -/
theorem foldl_mix_eq (infer : Tensor3 → Tensor4) (cks : List Chunk) (st : SepState) :
    (cks.foldl (processChunk infer) st).mix = st.mix := by
  induction cks generalizing st with
  | nil => rfl
  | cons ck cks ih => rw [List.foldl_cons, ih]; rfl

/-- Folding the loop body never changes the shape of the accumulator. -/
theorem foldl_final_shape (infer : Tensor3 → Tensor4) (cks : List Chunk) (st : SepState) :
    (cks.foldl (processChunk infer) st).final.d1 = st.final.d1 ∧
    (cks.foldl (processChunk infer) st).final.d2 = st.final.d2 ∧
    (cks.foldl (processChunk infer) st).final.d3 = st.final.d3 ∧
    (cks.foldl (processChunk infer) st).final.d4 = st.final.d4 := by
  induction cks generalizing st with
  | nil => exact ⟨rfl, rfl, rfl, rfl⟩
  | cons ck cks ih =>
    rw [List.foldl_cons]
    exact ih (processChunk infer st ck)

/-- From any state with a positive cursor, the difference `end - start` is the
same for every window the rest of the loop emits: the cursor and `end` both
advance by `chunk_len` once the first iteration is past. -/
theorem sepLoopAux_len_invariant (R segment overlap : ℚ) (L : ℕ)
    (hC : 0 ≤ chunkLen R segment overlap) :
    ∀ fuel (s e fi fo : ℤ), 1 ≤ s →
      ∀ ck ∈ sepLoopAux R segment overlap L fuel s e fi fo,
        ck.stop - ck.start = e - s := by
  intro fuel
  induction fuel with
  | zero => intro s e fi fo _ ck h; simp [sepLoopAux_zero] at h
  | succ fuel ih =>
    intro s e fi fo hs ck hck
    rw [sepLoopAux_succ] at hck
    split at hck
    · rcases List.mem_cons.mp hck with h | h
      · rw [h]
      · have hs0 : ¬ s = 0 := by omega
        rw [if_neg hs0] at h
        have := ih (s + chunkLen R segment overlap) (e + chunkLen R segment overlap)
          (if s = 0 then pyint (overlapFrames R overlap) else fi)
          (if (L : ℤ) ≤ e + chunkLen R segment overlap then 0 else fo)
          (by omega) ck h
        omega
    · simp at hck

/-- From any state in which `fade_in_len` has been set to `int(overlap_frames)`
and `fade_out_len` is zero exactly when the current `end` has passed `L`, every
window the rest of the loop emits keeps that shape. -/
theorem sepLoopAux_fade_invariant (R segment overlap : ℚ) (L : ℕ)
    (hC : 0 ≤ chunkLen R segment overlap) :
    ∀ fuel (s e fi fo : ℤ),
      fi = pyint (overlapFrames R overlap) →
      fo = (if (L : ℤ) ≤ e then 0 else pyint (overlapFrames R overlap)) →
      ∀ ck ∈ sepLoopAux R segment overlap L fuel s e fi fo,
        ck.fadeInLen = pyint (overlapFrames R overlap) ∧
        ck.fadeOutLen = (if (L : ℤ) ≤ ck.stop then 0 else pyint (overlapFrames R overlap)) := by
  intro fuel
  induction fuel with
  | zero => intro s e fi fo _ _ ck h; simp [sepLoopAux_zero] at h
  | succ fuel ih =>
    intro s e fi fo hfi hfo ck hck
    rw [sepLoopAux_succ] at hck
    split at hck
    · rcases List.mem_cons.mp hck with h | h
      · rw [h]
        exact ⟨hfi, hfo⟩
      · refine ih _ _ _ _ ?_ ?_ ck h
        · split
          · rfl
          · exact hfi
        · split
          · rfl
          · rename_i hno
            rw [hfo, if_neg (by omega)]
    · simp at hck

theorem pyint_natCast (V : ℕ) : pyint ((V : ℕ) : ℚ) = (V : ℤ) := by
  have h := pyint_intCast (V : ℤ)
  rw [show (((V : ℤ) : ℚ)) = ((V : ℕ) : ℚ) by push_cast; ring] at h
  exact h

/-- The loop condition `start < length - overlap_frames`, in integers, when
`overlap_frames` is the integer `V`. -/
theorem cond_iff (R overlap : ℚ) (L V : ℕ)
    (h1 : overlapFrames R overlap = (V : ℚ)) (s : ℤ) :
    ((s : ℚ) < (L : ℚ) - overlapFrames R overlap) ↔ s < (L : ℤ) - V := by
  rw [h1]
  constructor <;> intro h <;> exact_mod_cast h

/-- A non-running loop emits nothing, whatever the fuel. -/
theorem sepLoopAux_nil_of_cond (R segment overlap : ℚ) (L : ℕ) (fuel : ℕ)
    (s e fi fo : ℤ) (h : ¬ ((s : ℚ) < (L : ℚ) - overlapFrames R overlap)) :
    sepLoopAux R segment overlap L fuel s e fi fo = [] := by
  cases fuel with
  | zero => rfl
  | succ fuel => rw [sepLoopAux_succ, if_neg h]

theorem gainSum_nil (L T : ℕ) : gainSum L [] T = 0 := rfl

theorem gainSum_cons (L T : ℕ) (ck : Chunk) (cks : List Chunk) :
    gainSum L (ck :: cks) T = gainTerm L T ck + gainSum L cks T := by
  simp [gainSum]

/-- `normIdx` as an integer clamp, for nonnegative indices. -/
theorem normIdx_cast (n : ℕ) (i : ℤ) (h : 0 ≤ i) :
    ((normIdx n i : ℕ) : ℤ) = min i (n : ℤ) := by
  unfold normIdx
  rw [if_neg (not_lt.mpr h)]
  omega

theorem normIdx_le (n : ℕ) (i : ℤ) : normIdx n i ≤ n := by
  unfold normIdx
  split <;> omega

/-- `gainTerm` over integer bounds, for windows with nonnegative indices. -/
theorem gainTerm_eval (L T : ℕ) (s e fi fo : ℤ) (h0 : 0 ≤ s) (h1 : 0 ≤ e) :
    gainTerm L T ⟨s, e, fi, fo⟩ =
      if min s (L : ℤ) ≤ (T : ℤ) ∧ (T : ℤ) < min e (L : ℤ) then
        fadeGain fi fo (min e (L : ℤ) - min s (L : ℤ)) ((T : ℤ) - min s (L : ℤ))
      else 0 := by
  unfold gainTerm
  have ha := normIdx_cast L s h0
  have hb := normIdx_cast L e h1
  by_cases hc : normIdx L s ≤ T ∧ T < normIdx L e
  · rw [if_pos hc, if_pos (by omega)]
    have e1 : ((normIdx L e - normIdx L s : ℕ) : ℤ) = min e (L : ℤ) - min s (L : ℤ) := by
      omega
    have e2 : ((T - normIdx L s : ℕ) : ℤ) = (T : ℤ) - min s (L : ℤ) := by
      omega
    rw [e1, e2]
  · rw [if_neg hc, if_neg (by omega)]

/-- The flat region of the fade envelope: gain `1`. -/
theorem fadeGain_flat (fi fo n i : ℤ) (hin : fi ≤ i) (hout : i < n - fo) :
    fadeGain fi fo n i = 1 := by
  unfold fadeGain fadeInGain fadeOutGain
  rw [if_neg (by omega), if_neg (by omega)]
  ring

/-- The fade-in ramp region of the envelope. -/
theorem fadeGain_ramp_in (fi fo n i : ℤ) (hin : i < fi) (hout : i < n - fo) :
    fadeGain fi fo n i = linVal fi i := by
  unfold fadeGain fadeInGain fadeOutGain
  rw [if_pos hin, if_neg (by omega)]
  ring

/-- The fade-out ramp region of the envelope. -/
theorem fadeGain_ramp_out (fi fo n i : ℤ) (hin : fi ≤ i) (hout : n - fo ≤ i) :
    fadeGain fi fo n i = 1 - linVal fo (i - (n - fo)) := by
  unfold fadeGain fadeInGain fadeOutGain
  rw [if_neg (by omega), if_pos hout]
  ring

/-- The first-iteration cursor advance `int(chunk_len - overlap_frames)`
equals `chunk_len - ⌈overlap_frames⌉` when the difference is nonnegative. -/
theorem pyint_advance (R segment overlap : ℚ)
    (h : 0 ≤ (chunkLen R segment overlap : ℚ) - overlapFrames R overlap) :
    pyint ((chunkLen R segment overlap : ℚ) - overlapFrames R overlap)
      = chunkLen R segment overlap - ⌈overlapFrames R overlap⌉ := by
  rw [pyint_of_nonneg _ h,
    show (chunkLen R segment overlap : ℚ) - overlapFrames R overlap
      = -overlapFrames R overlap + (chunkLen R segment overlap : ℤ) by ring,
    Int.floor_add_int, Int.floor_neg]
  ring

theorem pyint_advance_pos (R segment overlap : ℚ)
    (hadv : overlapFrames R overlap + 1 ≤ (chunkLen R segment overlap : ℚ)) :
    1 ≤ pyint ((chunkLen R segment overlap : ℚ) - overlapFrames R overlap) := by
  rw [pyint_of_nonneg _ (by linarith)]
  exact Int.le_floor.mpr (by push_cast; linarith)

/-- Coverage invariant for interior loop states: from a state with positive
cursor `s` and `end = s + C + ⌈overlap_frames⌉`, every frame `t < L` with
`s + ⌈overlap_frames⌉ ≤ t` lies inside some window the rest of the loop
emits. -/
theorem sepLoopAux_cover (R segment overlap : ℚ) (L : ℕ)
    (h0 : 0 ≤ overlapFrames R overlap)
    (hadv : overlapFrames R overlap + 1 ≤ (chunkLen R segment overlap : ℚ)) :
    ∀ (fuel : ℕ) (s e fi fo : ℤ) (t : ℕ), 1 ≤ s →
      e = s + chunkLen R segment overlap + ⌈overlapFrames R overlap⌉ →
      (L : ℤ) ≤ s + fuel →
      s + ⌈overlapFrames R overlap⌉ ≤ (t : ℤ) →
      (t : ℤ) < L →
      ∃ ck ∈ sepLoopAux R segment overlap L fuel s e fi fo,
        ck.start ≤ (t : ℤ) ∧ (t : ℤ) < ck.stop := by
  have hD0 : 0 ≤ ⌈overlapFrames R overlap⌉ := Int.ceil_nonneg h0
  have hC1 : 1 ≤ chunkLen R segment overlap := by
    have : (1 : ℚ) ≤ (chunkLen R segment overlap : ℚ) := by linarith
    exact_mod_cast this
  intro fuel
  induction fuel with
  | zero =>
    intro s e fi fo t hs he hfl hst ht
    omega
  | succ fuel ih =>
    intro s e fi fo t hs he hfl hst ht
    rw [sepLoopAux_succ]
    by_cases hcond : (s : ℚ) < (L : ℚ) - overlapFrames R overlap
    · rw [if_pos hcond]
      by_cases hcov : (t : ℤ) < e
      · exact ⟨⟨s, e, fi, fo⟩, List.mem_cons_self _ _,
          show s ≤ (t : ℤ) by omega, show (t : ℤ) < e from hcov⟩
      · have hs0 : ¬ s = 0 := by omega
        rw [if_neg hs0]
        obtain ⟨ck, hmem, hck⟩ := ih (s + chunkLen R segment overlap)
          (e + chunkLen R segment overlap)
          (if s = 0 then pyint (overlapFrames R overlap) else fi)
          (if (L : ℤ) ≤ e + chunkLen R segment overlap then 0 else fo)
          t (by omega) (by omega) (by omega) (by omega) ht
        exact ⟨ck, List.mem_cons_of_mem _ hmem, hck⟩
    · exfalso
      rw [not_lt] at hcond
      have hVD : overlapFrames R overlap ≤ (⌈overlapFrames R overlap⌉ : ℚ) := Int.le_ceil _
      have hts : ((s : ℚ) + ⌈overlapFrames R overlap⌉ : ℚ) ≤ (t : ℚ) := by
        exact_mod_cast hst
      have htL : (t : ℚ) < (L : ℚ) := by exact_mod_cast ht
      linarith

/-- Cross-fade invariant: started from any interior state
(`end = start + C + V`, `fade_in_len = V`, `fade_out_len` cleared exactly when
the current `end` has passed `L`), the windows the rest of the loop emits
contribute, at every frame `T < L`, a total gain that ramps `0 → 1` over
`[start, start + V)` and is exactly `1` from `start + V` up to `L`.  Requires
`overlap_frames` to be the integer `V` with `V < C`. -/
theorem sepLoopAux_gain (R segment overlap : ℚ) (L V : ℕ)
    (h1 : overlapFrames R overlap = (V : ℚ))
    (h2 : (V : ℤ) < chunkLen R segment overlap) :
    ∀ (fuel : ℕ) (s e fo : ℤ) (T : ℕ), 1 ≤ s →
      e = s + chunkLen R segment overlap + V →
      fo = (if (L : ℤ) ≤ e then 0 else (V : ℤ)) →
      (L : ℤ) ≤ s + fuel →
      (T : ℤ) < L →
      (s : ℚ) < (L : ℚ) - overlapFrames R overlap →
      gainSum L (sepLoopAux R segment overlap L fuel s e (V : ℤ) fo) T =
        (if s + V ≤ (T : ℤ) then 1
          else if s ≤ (T : ℤ) then linVal V ((T : ℤ) - s) else 0) := by
  have hC1 : 1 ≤ chunkLen R segment overlap := by omega
  intro fuel
  induction fuel with
  | zero =>
    intro s e fo T hs he hfo hfl hT hrun
    rw [cond_iff R overlap L V h1] at hrun
    omega
  | succ fuel ih =>
    intro s e fo T hs he hfo hfl hT hrun
    have hrunZ : s < (L : ℤ) - V := (cond_iff R overlap L V h1 s).mp hrun
    rw [sepLoopAux_succ, if_pos hrun]
    have hs0 : ¬ s = 0 := by omega
    rw [if_neg hs0, if_neg hs0, gainSum_cons]
    by_cases hrun' : ((s + chunkLen R segment overlap : ℤ) : ℚ) <
        (L : ℚ) - overlapFrames R overlap
    · have hrunZ' : s + chunkLen R segment overlap < (L : ℤ) - V :=
        (cond_iff R overlap L V h1 _).mp hrun'
      have heL : e < (L : ℤ) := by omega
      have hfoV : fo = (V : ℤ) := by rw [hfo, if_neg (by omega)]
      have hfo' : (if (L : ℤ) ≤ e + chunkLen R segment overlap then 0 else fo)
          = (if (L : ℤ) ≤ e + chunkLen R segment overlap then 0 else (V : ℤ)) := by
        rw [hfoV]
      rw [hfo',
        ih (s + chunkLen R segment overlap) (e + chunkLen R segment overlap) _ T
          (by omega) (by omega) rfl (by omega) hT hrun',
        hfoV, gainTerm_eval L T s e (V : ℤ) (V : ℤ) (by omega) (by omega),
        min_eq_left (by omega : s ≤ (L : ℤ)),
        min_eq_left (by omega : e ≤ (L : ℤ))]
      rcases lt_or_le (T : ℤ) s with hT1 | hT1
      · rw [if_neg (by omega), if_neg (by omega), if_neg (by omega),
          if_neg (by omega), if_neg (by omega)]
        ring
      · rcases lt_or_le (T : ℤ) (s + V) with hT2 | hT2
        · rw [if_pos (by omega),
            fadeGain_ramp_in (V : ℤ) (V : ℤ) (e - s) ((T : ℤ) - s) (by omega) (by omega),
            if_neg (by omega), if_neg (by omega), if_neg (by omega), if_pos hT1]
          ring
        · rcases lt_or_le (T : ℤ) (s + chunkLen R segment overlap) with hT3 | hT3
          · rw [if_pos (by omega),
              fadeGain_flat (V : ℤ) (V : ℤ) (e - s) ((T : ℤ) - s) (by omega) (by omega),
              if_neg (by omega), if_neg (by omega), if_pos hT2]
            ring
          · rcases lt_or_le (T : ℤ) e with hT4 | hT4
            · rw [if_pos (by omega),
                fadeGain_ramp_out (V : ℤ) (V : ℤ) (e - s) ((T : ℤ) - s)
                  (by omega) (by omega),
                if_neg (by omega), if_pos hT3, if_pos hT2]
              have harg : (T : ℤ) - s - (e - s - (V : ℤ))
                  = (T : ℤ) - (s + chunkLen R segment overlap) := by omega
              rw [harg]
              ring
            · rw [if_neg (by omega), if_pos (by omega), if_pos (by omega)]
              ring
    · have heL : (L : ℤ) ≤ e := by
        have hge : ¬ (s + chunkLen R segment overlap < (L : ℤ) - V) := fun hh =>
          hrun' ((cond_iff R overlap L V h1 _).mpr hh)
        omega
      have hfo0 : fo = 0 := by rw [hfo, if_pos heL]
      rw [sepLoopAux_nil_of_cond R segment overlap L fuel _ _ _ _ hrun',
        gainSum_nil, hfo0, gainTerm_eval L T s e (V : ℤ) 0 (by omega) (by omega),
        min_eq_left (by omega : s ≤ (L : ℤ)), min_eq_right heL]
      rcases lt_or_le (T : ℤ) s with hT1 | hT1
      · rw [if_neg (by omega), if_neg (by omega), if_neg (by omega)]
        ring
      · rcases lt_or_le (T : ℤ) (s + V) with hT2 | hT2
        · rw [if_pos (by omega),
            fadeGain_ramp_in (V : ℤ) 0 ((L : ℤ) - s) ((T : ℤ) - s) (by omega) (by omega),
            if_neg (by omega), if_pos hT1]
          ring
        · rw [if_pos (by omega),
            fadeGain_flat (V : ℤ) 0 ((L : ℤ) - s) ((T : ℤ) - s) (by omega) (by omega),
            if_pos hT2]
          ring

/-- Unity gain: when `overlap_frames` is an integer `V` with `V < C < L`
(at least two windows), the emitted windows' fade envelopes sum to exactly
`1` at every frame of `[0, L)`. -/
theorem gainSum_chunks (R segment overlap : ℚ) (L V : ℕ)
    (h1 : overlapFrames R overlap = (V : ℚ))
    (h2 : (V : ℤ) < chunkLen R segment overlap)
    (h3 : chunkLen R segment overlap < (L : ℤ)) :
    ∀ T : ℕ, T < L → gainSum L (chunks R segment overlap L) T = 1 := by
  intro T hT
  have hC1 : 1 ≤ chunkLen R segment overlap := by omega
  have hpy : pyint (overlapFrames R overlap) = (V : ℤ) := by
    rw [h1]; exact pyint_natCast V
  have hceil : ⌈overlapFrames R overlap⌉ = (V : ℤ) := by
    rw [h1]; exact Int.ceil_natCast V
  have hVCQ : ((V : ℕ) : ℚ) ≤ (chunkLen R segment overlap : ℚ) := by
    exact_mod_cast le_of_lt h2
  have hadv : pyint ((chunkLen R segment overlap : ℚ) - overlapFrames R overlap)
      = chunkLen R segment overlap - V := by
    rw [pyint_advance R segment overlap (by rw [h1]; linarith), hceil]
  have hVLQ : ((V : ℕ) : ℚ) < ((L : ℕ) : ℚ) := by
    exact_mod_cast (by omega : (V : ℤ) < (L : ℤ))
  rw [chunks_eq, if_pos (by rw [h1]; linarith), hpy, hadv, gainSum_cons,
    sepLoopAux_gain R segment overlap L V h1 h2 (L + 1)
      (chunkLen R segment overlap - V)
      (chunkLen R segment overlap + chunkLen R segment overlap) _ T
      (by omega) (by omega) rfl (by omega) (by omega)
      ((cond_iff R overlap L V h1 _).mpr (by omega)),
    gainTerm_eval L T 0 (chunkLen R segment overlap) 0 (V : ℤ) (by omega) (by omega),
    min_eq_left (by omega : (0 : ℤ) ≤ (L : ℤ)), min_eq_left (le_of_lt h3)]
  rcases lt_or_le (T : ℤ) (chunkLen R segment overlap - V) with hr | hr
  · rw [if_pos (by omega),
      fadeGain_flat 0 (V : ℤ) (chunkLen R segment overlap - 0) ((T : ℤ) - 0)
        (by omega) (by omega),
      if_neg (by omega), if_neg (by omega)]
    ring
  · rcases lt_or_le (T : ℤ) (chunkLen R segment overlap) with hr2 | hr2
    · rw [if_pos (by omega),
        fadeGain_ramp_out 0 (V : ℤ) (chunkLen R segment overlap - 0) ((T : ℤ) - 0)
          (by omega) (by omega),
        if_neg (by omega), if_pos hr]
      have harg : (T : ℤ) - 0 - (chunkLen R segment overlap - 0 - (V : ℤ))
          = (T : ℤ) - (chunkLen R segment overlap - (V : ℤ)) := by omega
      rw [harg]
      ring
    · rw [if_neg (by omega), if_pos (by omega)]
      ring

/-- A doubly-covered frame is in range. -/
theorem covered_lt (L : ℕ) (cks : List Chunk) (T : ℕ)
    (h : 0 < coveredCount L cks T) : T < L := by
  unfold coveredCount at h
  obtain ⟨ck, hck⟩ := List.exists_mem_of_length_pos h
  have hmem := List.mem_filter.mp hck
  have hcov := of_decide_eq_true hmem.2
  have := normIdx_le L ck.stop
  omega

/-- Accumulating the identity adapter's output of a constant signal adds the
input value times the total envelope gain at each frame. -/
theorem foldl_const_identity (L batch channels : ℕ) (c : ℚ) (cks : List Chunk)
    (F : Tensor4) (i s j T : ℕ) :
    ((cks.foldl (processChunk identityInfer) ⟨constMix batch channels L c, F⟩).final).val i s j T
      = F.val i s j T + c * gainSum L cks T := by
  induction cks generalizing F with
  | nil => rw [List.foldl_nil, gainSum_nil]; ring
  | cons ck cks ih =>
    rw [List.foldl_cons, gainSum_cons,
      show processChunk identityInfer ⟨constMix batch channels L c, F⟩ ck =
        (⟨constMix batch channels L c,
          (processChunk identityInfer ⟨constMix batch channels L c, F⟩ ck).final⟩ :
            SepState) from rfl,
      ih]
    have hval : (processChunk identityInfer ⟨constMix batch channels L c, F⟩ ck).final.val i s j T
        = F.val i s j T + c * gainTerm L T ck := by
      simp only [processChunk, identityInfer, gainTerm, constMix]
      by_cases hcond : normIdx L ck.start ≤ T ∧ T < normIdx L ck.stop
      · rw [if_pos hcond, if_pos hcond]
        ring
      · rw [if_neg hcond, if_neg hcond]
        ring
    rw [hval]
    ring

/-! ### Claim theorems -/

/-- C1 counterexample: at `R = 10`, `segment = 5`, `overlap = 0.1`,
`L = 300` (chunk length `C = 55`) the loop emits six windows; the second
window `[54, 110)` is not the final one and spans 56 frames, not `C = 55`:
after the first iteration `end - start` is `C + V`, not `C`. -/
theorem window_length_counterexample :
    (chunks 10 5 (1/10) 300).length = 6 ∧
    (chunks 10 5 (1/10) 300)[1]? = some ⟨54, 110, 1, 1⟩ ∧
    chunkLen 10 5 (1/10) = 55 ∧
    (110 : ℤ) - 54 ≠ 55 := by
  refine ⟨?_, ?_, ?_, ?_⟩ <;> with_unfolding_all decide

/-- C1 (amended): the first window is exactly `[0, C)`; every later window —
non-final ones included — spans `C + ⌈overlap * R⌉` frames (that is `C + V`
when `overlap * R` is an integer), because `end` advances by `C` every
iteration while `start` advances by only `int(C - overlap * R)` on the first
iteration.  Non-final windows therefore have length `C` only in the
degenerate case `overlap * R = 0`. -/
theorem window_lengths (R segment overlap : ℚ) (L : ℕ)
    (h0 : 0 ≤ overlapFrames R overlap)
    (h1 : overlapFrames R overlap + 1 ≤ (chunkLen R segment overlap : ℚ)) :
    (∀ w ∈ (chunks R segment overlap L).head?,
        w.start = 0 ∧ w.stop = chunkLen R segment overlap) ∧
    (∀ w ∈ (chunks R segment overlap L).tail,
        w.stop - w.start = chunkLen R segment overlap + ⌈overlapFrames R overlap⌉) := by
  have hC : 0 ≤ chunkLen R segment overlap := by
    have : (0 : ℚ) ≤ (chunkLen R segment overlap : ℚ) := by linarith
    exact_mod_cast this
  rw [chunks_eq]
  split
  · constructor
    · intro w hw
      simp only [List.head?_cons, Option.mem_def, Option.some.injEq] at hw
      subst hw
      exact ⟨rfl, rfl⟩
    · intro w hw
      simp only [List.tail_cons] at hw
      have hnn : (0 : ℚ) ≤ (chunkLen R segment overlap : ℚ) - overlapFrames R overlap := by
        linarith
      have hs1 : pyint ((chunkLen R segment overlap : ℚ) - overlapFrames R overlap)
          = chunkLen R segment overlap - ⌈overlapFrames R overlap⌉ := by
        rw [pyint_of_nonneg _ hnn,
          show (chunkLen R segment overlap : ℚ) - overlapFrames R overlap
            = -overlapFrames R overlap + (chunkLen R segment overlap : ℤ) by ring,
          Int.floor_add_int, Int.floor_neg]
        ring
      have h1le : (1 : ℤ) ≤ pyint ((chunkLen R segment overlap : ℚ) - overlapFrames R overlap) := by
        rw [pyint_of_nonneg _ hnn]
        exact Int.le_floor.mpr (by push_cast; linarith)
      have hlen := sepLoopAux_len_invariant R segment overlap L hC (L + 1) _ _ _ _ h1le w hw
      rw [hlen, hs1]
      ring
  · refine ⟨fun w hw => ?_, fun w hw => ?_⟩ <;> simp at hw

theorem window_lengths_witness :
    ((0 : ℚ) ≤ overlapFrames 10 (1/10) ∧
      overlapFrames 10 (1/10) + 1 ≤ (chunkLen 10 5 (1/10) : ℚ)) ∧
    ((∀ w ∈ (chunks 10 5 (1/10) 300).head?,
        w.start = 0 ∧ w.stop = chunkLen 10 5 (1/10)) ∧
      (∀ w ∈ (chunks 10 5 (1/10) 300).tail,
        w.stop - w.start = chunkLen 10 5 (1/10) + ⌈overlapFrames 10 (1/10)⌉)) :=
  ⟨⟨by with_unfolding_all decide, by with_unfolding_all decide⟩,
    window_lengths 10 5 (1/10) 300 (by with_unfolding_all decide)
      (by with_unfolding_all decide)⟩

/-- C4 counterexample: at `R = 10`, `segment = 10`, `overlap = 0.1`,
`L = 50` the signal fits in one chunk (`C = 110 ≥ 50`); exactly one window is
emitted, its end `110` exceeds `L = 50`, yet it is processed with
`fade_out_len = 1 = int(overlap_frames)`, not `0`: the code clears
`fade_out_len` only after the window in which `end` first passes `L` has
already been processed, so the first window always keeps the initial
`fade_out_len`. -/
theorem fade_assignment_counterexample :
    chunks 10 10 (1/10) 50 = [⟨0, 110, 0, 1⟩] ∧
    (50 : ℤ) ≤ 110 ∧
    (1 : ℤ) ≠ 0 := by
  refine ⟨?_, ?_, ?_⟩ <;> with_unfolding_all decide

/-- C4 (amended): the first window is processed with `fade_in_len = 0` and —
unconditionally, even when its end reaches `L` — with
`fade_out_len = int(overlap_frames)`; every later window is processed with
`fade_in_len = int(overlap_frames)` and with `fade_out_len = 0` exactly when
its end index is `≥ L` (else `int(overlap_frames)`).  In particular the
single-window degenerate case runs with `fade_in_len = 0` but
`fade_out_len = int(overlap_frames)`, not `0`. -/
theorem fade_assignment (R segment overlap : ℚ) (L : ℕ)
    (hC : 0 ≤ chunkLen R segment overlap) :
    (∀ w ∈ (chunks R segment overlap L).head?,
        w.fadeInLen = 0 ∧ w.fadeOutLen = pyint (overlapFrames R overlap)) ∧
    (∀ w ∈ (chunks R segment overlap L).tail,
        w.fadeInLen = pyint (overlapFrames R overlap) ∧
        w.fadeOutLen = (if (L : ℤ) ≤ w.stop then 0
          else pyint (overlapFrames R overlap))) := by
  rw [chunks_eq]
  split
  · constructor
    · intro w hw
      simp only [List.head?_cons, Option.mem_def, Option.some.injEq] at hw
      subst hw
      exact ⟨rfl, rfl⟩
    · intro w hw
      simp only [List.tail_cons] at hw
      exact sepLoopAux_fade_invariant R segment overlap L hC (L + 1) _ _ _ _ rfl rfl w hw
  · refine ⟨fun w hw => ?_, fun w hw => ?_⟩ <;> simp at hw

theorem fade_assignment_witness :
    (0 : ℤ) ≤ chunkLen 10 5 (1/10) ∧
    ((∀ w ∈ (chunks 10 5 (1/10) 300).head?,
        w.fadeInLen = 0 ∧ w.fadeOutLen = pyint (overlapFrames 10 (1/10))) ∧
      (∀ w ∈ (chunks 10 5 (1/10) 300).tail,
        w.fadeInLen = pyint (overlapFrames 10 (1/10)) ∧
        w.fadeOutLen = (if (300 : ℤ) ≤ w.stop then 0
          else pyint (overlapFrames 10 (1/10))))) :=
  ⟨by with_unfolding_all decide,
    fade_assignment 10 5 (1/10) 300 (by with_unfolding_all decide)⟩

/-- C2 counterexample: at `R = 10`, `segment = 5`, `overlap = 0.15`
(`overlap * R = 1.5` is not an integer), `L = 150`, output frame 56 is
covered by exactly two windows, yet their fade gains sum to `2`, not `1`
(off by far more than any `1e-6` tolerance): the second window starts at
`int(C - 1.5) = 55` while the first window's fade-out occupies frame 56
only, so the ramps do not line up. -/
theorem overlap_gain_counterexample :
    coveredCount 150 (chunks 10 5 (3/20) 150) 56 = 2 ∧
    gainSum 150 (chunks 10 5 (3/20) 150) 56 = 2 ∧
    (1 : ℚ) + 1/1000000 < gainSum 150 (chunks 10 5 (3/20) 150) 56 := by
  refine ⟨?_, ?_, ?_⟩ <;> with_unfolding_all decide

/-- C2 (amended): provided `overlap * sample_rate` is an integer `V` with
`V < C < L` (as with the notebook defaults, where `overlap * sample_rate =
4410`), at every frame covered by exactly two windows the two fade envelope
gains sum to exactly `1` (so certainly within `1e-6`).  With a fractional
`overlap * sample_rate` the first and second windows' ramps misalign and the
sum can reach `2` (see the counterexample). -/
theorem overlap_gain_sum_one (R segment overlap : ℚ) (L V : ℕ)
    (h1 : overlapFrames R overlap = (V : ℚ))
    (h2 : (V : ℤ) < chunkLen R segment overlap)
    (h3 : chunkLen R segment overlap < (L : ℤ)) (T : ℕ)
    (hcov : coveredCount L (chunks R segment overlap L) T = 2) :
    gainSum L (chunks R segment overlap L) T = 1 :=
  gainSum_chunks R segment overlap L V h1 h2 h3 T
    (covered_lt L (chunks R segment overlap L) T (by omega))

theorem overlap_gain_sum_one_witness :
    (overlapFrames 10 (1/10) = ((1 : ℕ) : ℚ) ∧
      ((1 : ℕ) : ℤ) < chunkLen 10 5 (1/10) ∧
      chunkLen 10 5 (1/10) < ((300 : ℕ) : ℤ) ∧
      coveredCount 300 (chunks 10 5 (1/10) 300) 54 = 2) ∧
    gainSum 300 (chunks 10 5 (1/10) 300) 54 = 1 :=
  ⟨⟨by with_unfolding_all decide, by with_unfolding_all decide,
      by with_unfolding_all decide, by with_unfolding_all decide⟩,
    overlap_gain_sum_one 10 5 (1/10) 300 1 (by with_unfolding_all decide)
      (by with_unfolding_all decide) (by with_unfolding_all decide) 54
      (by with_unfolding_all decide)⟩

/-- C3 counterexample: a constant-1 signal of 50 frames through the identity
adapter at `R = 10`, `segment = 10`, `overlap = 0.2` fits in a single window,
which is nevertheless processed with `fade_out_len = 2`; output frame 49 (an
in-range frame, no padding involved) comes back `0` instead of `1`. -/
theorem roundtrip_counterexample :
    (separate_sources identityInfer 10 10 (1/5) 1 (constMix 1 1 50 1)).val 0 0 0 49 = 0 ∧
    (constMix 1 1 50 1).val 0 0 49 = 1 ∧
    (49 : ℕ) < 50 := by
  refine ⟨?_, ?_, ?_⟩ <;> with_unfolding_all decide

/-- C3 (amended): the constant-signal round trip holds away from the
degenerate cases: provided `overlap * sample_rate` is an integer `V` with
`V < C < L` (so at least two windows are emitted), `separate_sources` with
the identity adapter broadcast to one source maps a constant-valued signal to
the same constant at every frame of `[0, L)` — the cross-fade has unity gain
everywhere.  A signal fitting in a single window is instead attenuated by the
unmatched fade-out at its tail (see the counterexample). -/
theorem roundtrip_const_identity (R segment overlap : ℚ) (L V batch channels : ℕ)
    (c : ℚ) (h1 : overlapFrames R overlap = (V : ℚ))
    (h2 : (V : ℤ) < chunkLen R segment overlap)
    (h3 : chunkLen R segment overlap < (L : ℤ)) (i s j T : ℕ) (hT : T < L) :
    (separate_sources identityInfer R segment overlap 1
        (constMix batch channels L c)).val i s j T = c := by
  unfold separate_sources runSep
  rw [show (constMix batch channels L c).d3 = L from rfl,
    foldl_const_identity, gainSum_chunks R segment overlap L V h1 h2 h3 T hT]
  show 0 + c * 1 = c
  ring

theorem roundtrip_const_identity_witness :
    (overlapFrames 10 (1/10) = ((1 : ℕ) : ℚ) ∧
      ((1 : ℕ) : ℤ) < chunkLen 10 5 (1/10) ∧
      chunkLen 10 5 (1/10) < ((300 : ℕ) : ℤ) ∧
      (123 : ℕ) < 300) ∧
    (separate_sources identityInfer 10 5 (1/10) 1 (constMix 1 1 300 2)).val 0 0 0 123 = 2 :=
  ⟨⟨by with_unfolding_all decide, by with_unfolding_all decide,
      by with_unfolding_all decide, by with_unfolding_all decide⟩,
    roundtrip_const_identity 10 5 (1/10) 300 1 1 1 2 (by with_unfolding_all decide)
      (by with_unfolding_all decide) (by with_unfolding_all decide) 0 0 0 123
      (by with_unfolding_all decide)⟩

/-- C6 (amended): provided the signal is longer than `overlap * sample_rate`
frames and the chunk length exceeds `overlap * sample_rate` by at least one
frame (so the cursor advance is positive), the emitted windows cover every
frame of `[0, L)` and the first window is exactly `[0, C)`.  Without the
signal-length proviso the loop can emit no window at all (see the
counterexample), leaving every frame uncovered. -/
theorem coverage (R segment overlap : ℚ) (L : ℕ)
    (h0 : 0 ≤ overlapFrames R overlap)
    (hadv : overlapFrames R overlap + 1 ≤ (chunkLen R segment overlap : ℚ))
    (hL : overlapFrames R overlap < (L : ℚ)) :
    (∀ w ∈ (chunks R segment overlap L).head?,
        w.start = 0 ∧ w.stop = chunkLen R segment overlap) ∧
    ∀ t : ℕ, t < L → ∃ ck ∈ chunks R segment overlap L,
      ck.start ≤ (t : ℤ) ∧ (t : ℤ) < ck.stop := by
  have hcond : (0 : ℚ) < (L : ℚ) - overlapFrames R overlap := by linarith
  rw [chunks_eq, if_pos hcond]
  constructor
  · intro w hw
    simp only [List.head?_cons, Option.mem_def, Option.some.injEq] at hw
    subst hw
    exact ⟨rfl, rfl⟩
  · intro t ht
    by_cases hc : (t : ℤ) < chunkLen R segment overlap
    · exact ⟨⟨0, chunkLen R segment overlap, 0, pyint (overlapFrames R overlap)⟩,
        List.mem_cons_self _ _, show (0 : ℤ) ≤ (t : ℤ) by omega,
        show (t : ℤ) < chunkLen R segment overlap from hc⟩
    · have hpa := pyint_advance R segment overlap (by linarith)
      have hpp := pyint_advance_pos R segment overlap hadv
      obtain ⟨ck, hmem, hck⟩ := sepLoopAux_cover R segment overlap L h0 hadv (L + 1)
        (pyint ((chunkLen R segment overlap : ℚ) - overlapFrames R overlap))
        (chunkLen R segment overlap + chunkLen R segment overlap)
        (pyint (overlapFrames R overlap))
        (if (L : ℤ) ≤ chunkLen R segment overlap + chunkLen R segment overlap then 0
          else pyint (overlapFrames R overlap))
        t hpp (by omega) (by omega) (by omega) (by omega)
      exact ⟨ck, List.mem_cons_of_mem _ hmem, hck⟩

theorem coverage_witness :
    ((0 : ℚ) ≤ overlapFrames 10 (1/10) ∧
      overlapFrames 10 (1/10) + 1 ≤ (chunkLen 10 5 (1/10) : ℚ) ∧
      overlapFrames 10 (1/10) < ((300 : ℕ) : ℚ)) ∧
    ((∀ w ∈ (chunks 10 5 (1/10) 300).head?,
        w.start = 0 ∧ w.stop = chunkLen 10 5 (1/10)) ∧
      ∀ t : ℕ, t < 300 → ∃ ck ∈ chunks 10 5 (1/10) 300,
        ck.start ≤ (t : ℤ) ∧ (t : ℤ) < ck.stop) :=
  ⟨⟨by with_unfolding_all decide, by with_unfolding_all decide,
      by with_unfolding_all decide⟩,
    coverage 10 5 (1/10) 300 (by with_unfolding_all decide)
      (by with_unfolding_all decide) (by with_unfolding_all decide)⟩

/-- C6 counterexample: at `R = 10`, `segment = 10`, `overlap = 0.9` a 5-frame
signal (`L > 0`, parameters inside the spec's valid ranges) makes the loop
condition `0 < 5 - 9` false immediately: no window is emitted and no frame of
`[0, 5)` is covered. -/
theorem coverage_counterexample :
    chunks 10 10 (9/10) 5 = [] ∧
    coveredCount 5 (chunks 10 10 (9/10) 5) 0 = 0 ∧
    (0 : ℕ) < 5 := by
  refine ⟨?_, ?_, ?_⟩ <;> with_unfolding_all decide

/-- C5 counterexample: with `overlap = 1.0` (outside the spec's valid range
`[0, 1)`) the code performs no validation at all: on a 100-frame signal it
computes five windows and the run returns a normally accumulated tensor
(value 1 at frame 0 for a constant-1 signal under the identity adapter),
rather than failing before any window is computed. -/
theorem no_validation_counterexample :
    (chunks 10 1 1 100).length = 5 ∧
    (separate_sources identityInfer 10 1 1 1 (constMix 1 1 100 1)).val 0 0 0 0 = 1 := by
  constructor
  · with_unfolding_all decide
  · with_unfolding_all decide

/-- C5 (amended): `separate_sources` has no parameter validation and no error
path; the windowing loop runs whatever `overlap` is, and in particular with
`overlap = 1.0` it emits at least one window (and hence calls the inference
adapter) whenever the signal is longer than `overlap * sample_rate` frames. -/
theorem no_validation_overlap_one (R segment : ℚ) (L : ℕ)
    (h : overlapFrames R 1 < (L : ℚ)) :
    chunks R segment 1 L ≠ [] :=
  chunks_ne_nil R segment 1 L h

theorem no_validation_overlap_one_witness :
    overlapFrames 10 1 < ((100 : ℕ) : ℚ) ∧ chunks 10 1 1 100 ≠ [] :=
  ⟨by with_unfolding_all decide,
    no_validation_overlap_one 10 1 100 (by with_unfolding_all decide)⟩

/-- C7 counterexample: the frame counts are computed with Python `int(...)`
(truncation), not round-to-nearest: at `R = 10`, `segment = 5`,
`overlap = 0.175` the code's chunk length is `int(58.75) = 58` while
`round(58.75) = 59`, and the code's fade length is `int(1.75) = 1` while
`round(1.75) = 2`. -/
theorem rounding_counterexample :
    chunkLen 10 5 (7/40) = 58 ∧
    round ((10 : ℚ) * 5 * (1 + 7/40)) = 59 ∧
    chunkLen 10 5 (7/40) ≠ round ((10 : ℚ) * 5 * (1 + 7/40)) ∧
    pyint (overlapFrames 10 (7/40)) = 1 ∧
    round (overlapFrames 10 (7/40)) = 2 := by
  refine ⟨?_, ?_, ?_, ?_, ?_⟩ <;> with_unfolding_all decide

/-- C7 (amended): for nonnegative parameter products the derived frame counts
are floors (Python `int` truncation), not round-to-nearest: the chunk length
is `⌊R * segment * (1 + overlap)⌋` and the fade length is
`⌊overlap * R⌋`. -/
theorem truncation_frame_counts (R segment overlap : ℚ)
    (h1 : 0 ≤ R * segment * (1 + overlap)) (h2 : 0 ≤ overlapFrames R overlap) :
    chunkLen R segment overlap = ⌊R * segment * (1 + overlap)⌋ ∧
    pyint (overlapFrames R overlap) = ⌊overlapFrames R overlap⌋ :=
  ⟨pyint_of_nonneg _ h1, pyint_of_nonneg _ h2⟩

theorem truncation_frame_counts_witness :
    (0 : ℚ) ≤ 10 * 5 * (1 + 7/40) ∧ (0 : ℚ) ≤ overlapFrames 10 (7/40) ∧
    (chunkLen 10 5 (7/40) = ⌊(10 : ℚ) * 5 * (1 + 7/40)⌋ ∧
      pyint (overlapFrames 10 (7/40)) = ⌊overlapFrames 10 (7/40)⌋) :=
  ⟨by with_unfolding_all decide, by with_unfolding_all decide,
    truncation_frame_counts 10 5 (7/40) (by with_unfolding_all decide)
      (by with_unfolding_all decide)⟩

/-- C8 counterexample: on a zero-length signal the code raises nothing: the
loop emits no window and `separate_sources` silently returns the all-zero
`(1, 1, 2, 0)` tensor. -/
theorem short_signal_counterexample :
    chunks 10 1 (1/10) 0 = [] ∧
    separate_sources identityInfer 10 1 (1/10) 1 (constMix 1 2 0 1) = zeros4 1 1 2 0 := by
  constructor
  · with_unfolding_all decide
  · with_unfolding_all rfl

/-- C8 (amended): there is no `GeometryError`: for a zero-length signal, or
any signal of at most `overlap * sample_rate` frames, the loop emits no
window and `separate_sources` returns the all-zero accumulator of shape
`(batch, sources, channels, length)` without any error. -/
theorem short_signal_zero_output (infer : Tensor3 → Tensor4) (R segment overlap : ℚ)
    (S : ℕ) (mix : Tensor3) (h : (mix.d3 : ℚ) ≤ overlapFrames R overlap) :
    chunks R segment overlap mix.d3 = [] ∧
    separate_sources infer R segment overlap S mix = zeros4 mix.d1 S mix.d2 mix.d3 := by
  have hc := chunks_nil_of_short R segment overlap mix.d3 h
  refine ⟨hc, ?_⟩
  unfold separate_sources runSep
  rw [hc]
  rfl

theorem short_signal_zero_output_witness :
    (((constMix 2 3 0 7).d3 : ℚ) ≤ overlapFrames 10 (1/10)) ∧
    (chunks 10 1 (1/10) (constMix 2 3 0 7).d3 = [] ∧
      separate_sources identityInfer 10 1 (1/10) 1 (constMix 2 3 0 7) = zeros4 2 1 3 0) :=
  ⟨by with_unfolding_all decide,
    short_signal_zero_output identityInfer 10 1 (1/10) 1 (constMix 2 3 0 7)
      (by with_unfolding_all decide)⟩

/-- C9: `separate_sources` never mutates the input signal: across the whole
run the `mix` component of the loop state is the unchanged input tensor; only
the separately allocated accumulator is updated (by addition). -/
theorem input_not_mutated (infer : Tensor3 → Tensor4) (R segment overlap : ℚ)
    (S : ℕ) (mix : Tensor3) :
    (runSep infer R segment overlap S mix).mix = mix :=
  foldl_mix_eq infer (chunks R segment overlap mix.d3) _

/-- C10: the returned tensor always has shape
`(batch, numSources, channels, length)` — its last axis is the input length —
and when the loop emits zero windows (signal no longer than
`overlap * sample_rate` frames) the result is the all-zero tensor of that
shape, not an error. -/
theorem output_shape_and_zero_windows (infer : Tensor3 → Tensor4)
    (R segment overlap : ℚ) (S : ℕ) (mix : Tensor3) :
    ((separate_sources infer R segment overlap S mix).d1 = mix.d1 ∧
      (separate_sources infer R segment overlap S mix).d2 = S ∧
      (separate_sources infer R segment overlap S mix).d3 = mix.d2 ∧
      (separate_sources infer R segment overlap S mix).d4 = mix.d3) ∧
    ((mix.d3 : ℚ) ≤ overlapFrames R overlap →
      separate_sources infer R segment overlap S mix = zeros4 mix.d1 S mix.d2 mix.d3) := by
  constructor
  · exact foldl_final_shape infer (chunks R segment overlap mix.d3)
      ⟨mix, zeros4 mix.d1 S mix.d2 mix.d3⟩
  · intro h
    unfold separate_sources runSep
    rw [chunks_nil_of_short R segment overlap mix.d3 h]
    rfl

theorem output_shape_and_zero_windows_witness :
    ((separate_sources identityInfer 10 1 (1/10) 4 (constMix 1 2 50 3)).d1 = 1 ∧
      (separate_sources identityInfer 10 1 (1/10) 4 (constMix 1 2 50 3)).d2 = 4 ∧
      (separate_sources identityInfer 10 1 (1/10) 4 (constMix 1 2 50 3)).d3 = 2 ∧
      (separate_sources identityInfer 10 1 (1/10) 4 (constMix 1 2 50 3)).d4 = 50) ∧
    (((constMix 1 2 50 3).d3 : ℚ) ≤ overlapFrames 10 (1/10) →
      separate_sources identityInfer 10 1 (1/10) 4 (constMix 1 2 50 3) = zeros4 1 4 2 50) :=
  output_shape_and_zero_windows identityInfer 10 1 (1/10) 4 (constMix 1 2 50 3)

end HybridDemucs
